import Mathlib

/-!
# Verification of the Saturn/Neptune render-graph resource core

Shallow embedding of the resource-management core of the repository:

* `src/neptune_vulkan/src/resource_managers.rs` — `ResourceManager` with its
  slotmap-backed buffer/image/sampler tables, the two-slot deferred-deletion
  ring (`flush_frame`), the graph-resolution functions
  (`get_buffer_resources`, `get_image_resources`) and the recursive
  `get_transient_image_size`.
* `src/neptune_vulkan/src/device.rs` — `Device::destroy_buffer`,
  `Device::destroy_image`, `Device::submit_frame`.
* `src/saturn_rendering/src/swapchain.rs` — `Swapchain::acquire_next_image`.

Machine integers are modelled as `Nat`; Rust panics (`slotmap` indexing,
`unwrap`, `todo!`) are modelled as an explicit `panic` outcome; fallible code
returns `Except`.  Recursion that is not structurally well-founded in the
source (`get_transient_image_size`, the `acquire_next_image` retry loop) is
embedded twice: as a fuelled executable function and as a big-step evaluation
relation, linked by a soundness lemma.
-/

namespace Saturn

/-- `vk::Extent2D`: a 2-D pixel extent (`width`, `height` are `u32`). -/
structure Extent2D where
  width : Nat
  height : Nat
deriving DecidableEq, Repr

/-- One slot of a `slotmap::SlotMap`: a generation counter plus the stored
value (`none` when the slot is vacant).  The generation is bumped every time
the slot's occupancy changes, so a key minted for an earlier occupancy never
matches again. -/
structure Slot (α : Type) where
  generation : Nat
  value : Option α
deriving Repr, DecidableEq

/-- A generational key into a `SlotMap` (the repository's `BufferKey`,
`ImageKey`, `SamplerKey` are `slotmap` keys of this shape). -/
structure SlotKey where
  idx : Nat
  generation : Nat
deriving DecidableEq, Repr

/-- Model of `slotmap::SlotMap`: a list of generation-tagged slots. -/
structure SlotMap (α : Type) where
  slots : List (Slot α)
deriving Repr, DecidableEq

namespace SlotMap

/-- The empty slot map (`SlotMap::with_key()`). -/
def empty (α : Type) : SlotMap α := ⟨[]⟩

/-- `SlotMap::get`: returns the stored value only when the key's index is in
range and its generation matches the slot's current generation. -/
def get (m : SlotMap α) (k : SlotKey) : Option α :=
  match m.slots[k.idx]? with
  | some s => if s.generation = k.generation then s.value else none
  | none => none

/-- Index of the first vacant slot, if any (slot reuse on insert). -/
def firstFree (m : SlotMap α) : Option Nat :=
  (List.range m.slots.length).find? fun i =>
    match m.slots[i]? with
    | some s => s.value.isNone
    | none => false

/-- `SlotMap::insert`: reuse the first vacant slot (bumping its generation) or
append a fresh slot.  Returns the new key and the updated map. -/
def insert (m : SlotMap α) (v : α) : SlotKey × SlotMap α :=
  match m.firstFree with
  | some i =>
    match m.slots[i]? with
    | some s =>
      (⟨i, s.generation + 1⟩,
        ⟨m.slots.set i ⟨s.generation + 1, some v⟩⟩)
    | none => (⟨m.slots.length, 1⟩, ⟨m.slots ++ [⟨1, some v⟩]⟩)
  | none => (⟨m.slots.length, 1⟩, ⟨m.slots ++ [⟨1, some v⟩]⟩)

/-- `SlotMap::remove`: when the key is live, vacate its slot (bumping the
generation) and return the stored value; otherwise leave the map unchanged
and return `none`. -/
def remove (m : SlotMap α) (k : SlotKey) : Option α × SlotMap α :=
  match m.slots[k.idx]? with
  | some s =>
    if s.generation = k.generation then
      match s.value with
      | some v => (some v, ⟨m.slots.set k.idx ⟨s.generation + 1, none⟩⟩)
      | none => (none, m)
    else (none, m)
  | none => (none, m)

/-- `SlotMap::get_mut` + in-place update of a component, used to model
`std::mem::replace` on a field of the stored value. -/
def modify (m : SlotMap α) (k : SlotKey) (f : α → α) : SlotMap α :=
  match m.slots[k.idx]? with
  | some s =>
    if s.generation = k.generation then
      match s.value with
      | some v => ⟨m.slots.set k.idx ⟨s.generation, some (f v)⟩⟩
      | none => m
    else m
  | none => m

end SlotMap

/-- `BufferResourceAccess` (resource_managers.rs lines 29–40). -/
inductive BufferResourceAccess where
  | None
  | TransferRead
  | TransferWrite
  | VertexRead
  | IndexRead
  | IndirectRead
  | UniformRead
  | StorageRead
  | StorageWrite
deriving DecidableEq, Repr

/-- `ImageResourceAccess` (resource_managers.rs lines 100–109). -/
inductive ImageResourceAccess where
  | None
  | TransferRead
  | TransferWrite
  | AttachmentWrite
  | SampledRead
  | StorageRead
  | StorageWrite
deriving DecidableEq, Repr

/-- Model of a persistent GPU `Buffer` (buffer.rs is not in src; the fields
are the ones resource_managers.rs and device.rs actually read: the size and
usage coming from its `BufferDescription`, and the bindless storage binding
slot set by `ResourceManager::add_buffer`). -/
structure Buffer where
  size : Nat
  usageStorage : Bool
  storage_binding : Option Nat
deriving DecidableEq, Repr

/-- Model of a persistent GPU `Image` (image.rs is not in src; the fields are
the ones resource_managers.rs reads: the 2-D size and usage from its
description plus the bindless binding slots set by
`ResourceManager::add_image`). -/
structure Image where
  size : Extent2D
  usageStorage : Bool
  usageSampled : Bool
  storage_binding : Option Nat
  sampled_binding : Option Nat
deriving DecidableEq, Repr

/-- Model of a `Sampler` (sampler.rs is not in src; only its bindless binding
slot is observable in resource_managers.rs). -/
structure Sampler where
  binding : Option Nat
deriving DecidableEq, Repr

/-- Modelled from the spec: `DescriptorSet` (descriptor_set.rs is not in src).
A fixed-capacity bindless table; `bind_*` assigns the next free slot index of
the corresponding pool.  Only the assignment counters are observable to the
code under verification. -/
structure DescriptorSet where
  next_storage_buffer : Nat
  next_storage_image : Nat
  next_sampled_image : Nat
  next_sampler : Nat
deriving DecidableEq, Repr

namespace DescriptorSet

def bind_storage_buffer (d : DescriptorSet) : Nat × DescriptorSet :=
  (d.next_storage_buffer, { d with next_storage_buffer := d.next_storage_buffer + 1 })

def bind_storage_image (d : DescriptorSet) : Nat × DescriptorSet :=
  (d.next_storage_image, { d with next_storage_image := d.next_storage_image + 1 })

def bind_sampled_image (d : DescriptorSet) : Nat × DescriptorSet :=
  (d.next_sampled_image, { d with next_sampled_image := d.next_sampled_image + 1 })

def bind_sampler (d : DescriptorSet) : Nat × DescriptorSet :=
  (d.next_sampler, { d with next_sampler := d.next_sampler + 1 })

end DescriptorSet

/-- `BufferResource` (resource_managers.rs lines 171–174): a persistent buffer
together with its stored last access. -/
structure BufferResource where
  buffer : Buffer
  last_access : BufferResourceAccess
deriving DecidableEq, Repr

/-- `ImageResource` (resource_managers.rs lines 181–183): a persistent image.
Note: unlike `BufferResource`, it stores no last-access field. -/
structure ImageResource where
  image : Image
deriving DecidableEq, Repr

/-- `BufferTempResource` (resource_managers.rs lines 176–179). -/
structure BufferTempResource where
  buffer : Buffer
  last_access : BufferResourceAccess
deriving DecidableEq, Repr

/-- `ImageTempResource` (resource_managers.rs lines 185–188). -/
structure ImageTempResource where
  image : Image
  last_usage : ImageResourceAccess
deriving DecidableEq, Repr

/-- `ResourceManager` (resource_managers.rs lines 190–209): slotmap tables for
buffers/images/samplers, the two-slot deferred-deletion ring
(`freed_buffers`/`freed_buffers2` and likewise for images), the bindless
descriptor set, and the per-frame transient resource lists. -/
structure ResourceManager where
  buffers : SlotMap BufferResource
  freed_buffers : List SlotKey
  images : SlotMap ImageResource
  freed_images : List SlotKey
  samplers : SlotMap Sampler
  descriptor_set : DescriptorSet
  freed_buffers2 : List SlotKey
  freed_images2 : List SlotKey
  transient_buffers : List Buffer
  transient_images : List Image
deriving DecidableEq

namespace ResourceManager

/-- Drain a freed-key list against a slot map (the `for key in ... drain`
loops of `flush_frame`; the `warn!` on an invalid key has no state effect). -/
def removeKeys (m : SlotMap α) (ks : List SlotKey) : SlotMap α :=
  ks.foldl (fun m k => (m.remove k).2) m

/-- `ResourceManager::flush_frame` (resource_managers.rs lines 240–257):
remove every key queued two generations ago, rotate the ring
(`freed_*2 := take(freed_*)`), and clear the transient lists. -/
def flush_frame (rm : ResourceManager) : ResourceManager :=
  { rm with
    buffers := removeKeys rm.buffers rm.freed_buffers2
    images := removeKeys rm.images rm.freed_images2
    freed_buffers2 := rm.freed_buffers
    freed_images2 := rm.freed_images
    freed_buffers := []
    freed_images := []
    transient_buffers := []
    transient_images := [] }

/-- `ResourceManager::add_buffer` (lines 260–269): bind a storage descriptor
when the usage asks for it, then insert with default (`None`) last access. -/
def add_buffer (rm : ResourceManager) (buffer : Buffer) : SlotKey × ResourceManager :=
  let (buffer, ds) :=
    if buffer.usageStorage then
      let (slot, ds) := rm.descriptor_set.bind_storage_buffer
      ({ buffer with storage_binding := some slot }, ds)
    else (buffer, rm.descriptor_set)
  let (key, buffers) := rm.buffers.insert ⟨buffer, BufferResourceAccess.None⟩
  (key, { rm with buffers := buffers, descriptor_set := ds })

/-- `ResourceManager::get_buffer` (lines 270–272). -/
def get_buffer (rm : ResourceManager) (key : SlotKey) : Option Buffer :=
  (rm.buffers.get key).map fun resource => resource.buffer

/-- `ResourceManager::get_and_update_buffer_resource` (lines 273–284): on a
live key, return the buffer copy paired with the previous last access and
store the new one (`std::mem::replace`). -/
def get_and_update_buffer_resource (rm : ResourceManager) (key : SlotKey)
    (new_last_access : BufferResourceAccess) :
    Option BufferTempResource × ResourceManager :=
  match rm.buffers.get key with
  | some resource =>
    (some ⟨resource.buffer, resource.last_access⟩,
      { rm with buffers := rm.buffers.modify key fun r => { r with last_access := new_last_access } })
  | none => (none, rm)

/-- `ResourceManager::remove_buffer` (lines 286–288): enqueue only. -/
def remove_buffer (rm : ResourceManager) (key : SlotKey) : ResourceManager :=
  { rm with freed_buffers := rm.freed_buffers ++ [key] }

/-- `ResourceManager::add_image` (lines 291–301). -/
def add_image (rm : ResourceManager) (image : Image) : SlotKey × ResourceManager :=
  let (image, ds) :=
    if image.usageStorage then
      let (slot, ds) := rm.descriptor_set.bind_storage_image
      ({ image with storage_binding := some slot }, ds)
    else (image, rm.descriptor_set)
  let (image, ds) :=
    if image.usageSampled then
      let (slot, ds2) := ds.bind_sampled_image
      ({ image with sampled_binding := some slot }, ds2)
    else (image, ds)
  let (key, images) := rm.images.insert ⟨image⟩
  (key, { rm with images := images, descriptor_set := ds })

/-- `ResourceManager::get_image` (lines 302–304). -/
def get_image (rm : ResourceManager) (key : SlotKey) : Option Image :=
  (rm.images.get key).map fun resource => resource.image

/-- `ResourceManager::remove_image` (lines 305–307): enqueue only. -/
def remove_image (rm : ResourceManager) (key : SlotKey) : ResourceManager :=
  { rm with freed_images := rm.freed_images ++ [key] }

/-- `ResourceManager::add_sampler` (lines 310–313). -/
def add_sampler (rm : ResourceManager) (sampler : Sampler) : SlotKey × ResourceManager :=
  let (slot, ds) := rm.descriptor_set.bind_sampler
  let (key, samplers) := rm.samplers.insert { sampler with binding := some slot }
  (key, { rm with samplers := samplers, descriptor_set := ds })

/-- `ResourceManager::get_sampler` (lines 314–316). -/
def get_sampler (rm : ResourceManager) (key : SlotKey) : Option Sampler :=
  rm.samplers.get key

/-- `ResourceManager::remove_sampler` (lines 317–321): remove immediately
(`self.samplers.remove(key)`); an invalid key only logs a warning. -/
def remove_sampler (rm : ResourceManager) (key : SlotKey) : ResourceManager :=
  { rm with samplers := (rm.samplers.remove key).2 }

end ResourceManager

/-! ## Graph resource descriptions and resolution

`render_graph.rs` and `image.rs` are not in src; the shapes of
`BufferGraphResource`, `ImageGraphResource`, `BufferResourceDescription`,
`ImageResourceDescription`, `ImageHandle` and `TransientImageSize` below are
exactly the ones resource_managers.rs destructures. -/

/-- `ImageHandle`: a persistent generational key or a graph-local transient
index. -/
inductive ImageHandle where
  | Persistent (key : SlotKey)
  | Transient (index : Nat)
deriving DecidableEq, Repr

/-- `TransientImageSize`: an exact extent, or an extent relative to another
image's.  The source scale is `[f32; 2]`; it is modelled as a pair of exact
rationals.  On every input appearing in the claims the scale factors and
extents are small dyadic values on which `f32` arithmetic is exact, so the
rational model and the IEEE computation agree there. -/
inductive TransientImageSize where
  | Exact (extent : Extent2D)
  | Relative (scale : ℚ × ℚ) (target : ImageHandle)
deriving DecidableEq, Repr

/-- `(extent.width as f32 * scale[0]) as u32` and likewise for the height:
Rust's float-to-int `as` truncates toward zero and saturates at 0 below,
which `Int.floor`+`Int.toNat` reproduces for the nonnegative products at
hand (saturation at `u32::MAX`, and `u32→f32` rounding above `2^24`, are
outside every claim's inputs and are not modelled). -/
def scaleExtent (e : Extent2D) (scale : ℚ × ℚ) : Extent2D :=
  { width := (⌊(e.width : ℚ) * scale.1⌋).toNat
    height := (⌊(e.height : ℚ) * scale.2⌋).toNat }

/-- Modelled from the spec: `BufferDescription` (buffer.rs is not in src) —
the requested size and usage of a buffer to create. -/
structure BufferDescription where
  size : Nat
  usageStorage : Bool
deriving DecidableEq, Repr

/-- Modelled from the spec: `Buffer::new` (buffer.rs is not in src) —
materialize a buffer per its description, with no descriptor binding yet;
its only failure mode is allocation exhaustion (`AllocationFailure`), which
the model abstracts as success. -/
def Buffer.new (description : BufferDescription) : Buffer :=
  { size := description.size
    usageStorage := description.usageStorage
    storage_binding := none }

/-- Modelled from the spec: `TransientImageDescription` (image.rs is not in
src) — the size rule and usage of a transient image to create. -/
structure TransientImageDescription where
  size : TransientImageSize
  usageStorage : Bool
  usageSampled : Bool
deriving DecidableEq, Repr

/-- Modelled from the spec: `to_image_description` composed with
`Image::new_2d` (image.rs is not in src) — materialize a 2-D image of the
resolved extent per the transient description, with no bindings yet;
allocation failure is abstracted as success. -/
def TransientImageDescription.new_2d (d : TransientImageDescription)
    (size : Extent2D) : Image :=
  { size := size
    usageStorage := d.usageStorage
    usageSampled := d.usageSampled
    storage_binding := none
    sampled_binding := none }

/-- `BufferResourceDescription` (render_graph.rs is not in src; variants as
destructured by `get_buffer_resources`). -/
inductive BufferResourceDescription where
  | Persistent (key : SlotKey)
  | Transient (description : BufferDescription)
deriving DecidableEq, Repr

/-- `BufferGraphResource` (render_graph.rs is not in src; only its
`description` field is read by `get_buffer_resources`). -/
structure BufferGraphResource where
  description : BufferResourceDescription
deriving DecidableEq, Repr

/-- `ImageResourceDescription` (render_graph.rs is not in src; variants as
destructured by `get_image_resources`). -/
inductive ImageResourceDescription where
  | Persistent (key : SlotKey)
  | Transient (description : TransientImageDescription)
  | Swapchain (index : Nat)
deriving DecidableEq, Repr

/-- `ImageGraphResource` (render_graph.rs is not in src; only its
`description` field is read by `get_image_resources`). -/
structure ImageGraphResource where
  description : ImageResourceDescription
deriving DecidableEq, Repr

/-- How a resolution call ends when it does not produce a value: a Rust
panic (slotmap indexing `self.buffers[*key]`, slice indexing, `unwrap`), a
returned `VulkanError` (only the transient-allocation path can produce one,
and the model abstracts allocation as success), or fuel exhaustion of the
model standing for possible divergence of the source's unbounded
recursion. -/
inductive ResolveFailure where
  | panic
  | allocationError
  | fuelOut
deriving DecidableEq, Repr

/-- `get_buffer_resources` (resource_managers.rs lines 326–360), one loop
iteration at a time.  Persistent: `&self.buffers[*key]` — a dead key is a
panic, and the stored `last_access` is read but NOT written back (the
source's `//TODO: write last usages` is unimplemented).  Transient: create
the buffer, bind a storage descriptor when requested, report `None` as last
access, and keep the buffer in `transient_buffers`. -/
def ResourceManager.get_buffer_resources (rm : ResourceManager) :
    List BufferGraphResource →
    Except ResolveFailure (List BufferTempResource × ResourceManager)
  | [] => .ok ([], rm)
  | b :: rest =>
    match b.description with
    | .Persistent key =>
      match rm.buffers.get key with
      | some resource =>
        match rm.get_buffer_resources rest with
        | .ok (resources, rm') =>
          .ok (⟨resource.buffer, resource.last_access⟩ :: resources, rm')
        | .error e => .error e
      | none => .error .panic
    | .Transient buffer_description =>
      let buffer := Buffer.new buffer_description
      let (buffer, ds) :=
        if buffer.usageStorage then
          let (slot, ds) := rm.descriptor_set.bind_storage_buffer
          ({ buffer with storage_binding := some slot }, ds)
        else (buffer, rm.descriptor_set)
      let rm1 : ResourceManager :=
        { rm with
          descriptor_set := ds
          transient_buffers := rm.transient_buffers ++ [buffer] }
      match rm1.get_buffer_resources rest with
      | .ok (resources, rm') =>
        .ok (⟨buffer, BufferResourceAccess.None⟩ :: resources, rm')
      | .error e => .error e

/-- `get_transient_image_size` (resource_managers.rs lines 424–459), with an
explicit fuel bound on the source's unbounded `Relative`-chain recursion.
Persistent lookups use `get_image(..).unwrap()` — a dead key is a panic —
and transient indices use slice indexing — out of range is a panic. -/
def get_transient_image_size (rm : ResourceManager)
    (images : List ImageGraphResource) (swapchain_images : List Image) :
    Nat → TransientImageSize → Except ResolveFailure Extent2D
  | _, .Exact extent => .ok extent
  | 0, .Relative _ _ => .error .fuelOut
  | fuel + 1, .Relative scale target =>
    let extent : Except ResolveFailure Extent2D :=
      match target with
      | .Persistent image_key =>
        match rm.get_image image_key with
        | some img => .ok img.size
        | none => .error .panic
      | .Transient index =>
        match images[index]? with
        | none => .error .panic
        | some r =>
          match r.description with
          | .Persistent image_key =>
            match rm.get_image image_key with
            | some img => .ok img.size
            | none => .error .panic
          | .Transient desc =>
            get_transient_image_size rm images swapchain_images fuel desc.size
          | .Swapchain swapchain_index =>
            match swapchain_images[swapchain_index]? with
            | some img => .ok img.size
            | none => .error .panic
    match extent with
    | .ok e => .ok (scaleExtent e scale)
    | .error e => .error e

/-- Big-step evaluation relation of `get_transient_image_size`: one rule per
arm of the source's `match`, restricted to runs that produce an extent.  A
cyclic `Relative` chain admits no derivation — the source recursion never
returns there. -/
inductive SizeEval (rm : ResourceManager) (images : List ImageGraphResource)
    (swapchain_images : List Image) : TransientImageSize → Extent2D → Prop where
  | exactSize (extent : Extent2D) : SizeEval rm images swapchain_images (.Exact extent) extent
  | relPersistent (scale : ℚ × ℚ) (image_key : SlotKey) (img : Image)
      (hget : rm.get_image image_key = some img) :
      SizeEval rm images swapchain_images (.Relative scale (.Persistent image_key))
        (scaleExtent img.size scale)
  | relTransientPersistent (scale : ℚ × ℚ) (index : Nat) (r : ImageGraphResource)
      (image_key : SlotKey) (img : Image)
      (hidx : images[index]? = some r)
      (hdesc : r.description = .Persistent image_key)
      (hget : rm.get_image image_key = some img) :
      SizeEval rm images swapchain_images (.Relative scale (.Transient index))
        (scaleExtent img.size scale)
  | relTransientTransient (scale : ℚ × ℚ) (index : Nat) (r : ImageGraphResource)
      (desc : TransientImageDescription) (e : Extent2D)
      (hidx : images[index]? = some r)
      (hdesc : r.description = .Transient desc)
      (hrec : SizeEval rm images swapchain_images desc.size e) :
      SizeEval rm images swapchain_images (.Relative scale (.Transient index))
        (scaleExtent e scale)
  | relTransientSwapchain (scale : ℚ × ℚ) (index : Nat) (r : ImageGraphResource)
      (swapchain_index : Nat) (img : Image)
      (hidx : images[index]? = some r)
      (hdesc : r.description = .Swapchain swapchain_index)
      (hget : swapchain_images[swapchain_index]? = some img) :
      SizeEval rm images swapchain_images (.Relative scale (.Transient index))
        (scaleExtent img.size scale)

/-- Soundness of the fuelled function for the evaluation relation: any run
that returns an extent is a derivation of `SizeEval`. -/
theorem get_transient_image_size_sound (rm : ResourceManager)
    (images : List ImageGraphResource) (swapchain_images : List Image) :
    ∀ (fuel : Nat) (size : TransientImageSize) (e : Extent2D),
      get_transient_image_size rm images swapchain_images fuel size = .ok e →
      SizeEval rm images swapchain_images size e := by
  intro fuel
  induction fuel with
  | zero =>
    intro size e h
    cases size with
    | Exact extent =>
      simp only [get_transient_image_size, Except.ok.injEq] at h
      exact h ▸ SizeEval.exactSize extent
    | Relative scale target => simp [get_transient_image_size] at h
  | succ n ih =>
    intro size e h
    cases size with
    | Exact extent =>
      simp only [get_transient_image_size, Except.ok.injEq] at h
      exact h ▸ SizeEval.exactSize extent
    | Relative scale target =>
      cases target with
      | Persistent image_key =>
        simp only [get_transient_image_size] at h
        cases hget : rm.get_image image_key with
        | some img =>
          rw [hget] at h
          simp only [Except.ok.injEq] at h
          exact h ▸ SizeEval.relPersistent scale image_key img hget
        | none => rw [hget] at h; cases h
      | Transient index =>
        simp only [get_transient_image_size] at h
        cases hidx : images[index]? with
        | none => rw [hidx] at h; cases h
        | some r =>
          simp only [hidx] at h
          cases hdesc : r.description with
          | Persistent image_key =>
            simp only [hdesc] at h
            cases hget : rm.get_image image_key with
            | some img =>
              simp only [hget, Except.ok.injEq] at h
              exact h ▸ SizeEval.relTransientPersistent scale index r image_key img hidx hdesc hget
            | none => simp only [hget] at h; cases h
          | Transient desc =>
            simp only [hdesc] at h
            cases hrec : get_transient_image_size rm images swapchain_images n desc.size with
            | ok e0 =>
              simp only [hrec, Except.ok.injEq] at h
              exact h ▸ SizeEval.relTransientTransient scale index r desc e0 hidx hdesc (ih _ _ hrec)
            | error err => simp only [hrec] at h; cases h
          | Swapchain swapchain_index =>
            simp only [hdesc] at h
            cases hget : swapchain_images[swapchain_index]? with
            | some img =>
              simp only [hget, Except.ok.injEq] at h
              exact h ▸ SizeEval.relTransientSwapchain scale index r swapchain_index img hidx hdesc hget
            | none => simp only [hget] at h; cases h

/-- Loop body of `get_image_resources` (resource_managers.rs lines 364–421):
`full` is the whole `images` slice (passed unmodified to every
`get_transient_image_size` call) while the last argument is the remaining
part of the iteration.  Persistent: `&self.images[*key]` — a dead key is a
panic — and the reported previous access is always `None` (the source's
`//TODO: write last usages` is unimplemented and `ImageResource` stores no
last access).  Transient: resolve the size, create the image, bind
storage/sampled descriptors when requested, keep the image in
`transient_images`.  Swapchain: `swapchain_images[*index]` — out of range is
a panic. -/
def ResourceManager.get_image_resources_go (full : List ImageGraphResource)
    (swapchain_images : List Image) (fuel : Nat) (rm : ResourceManager) :
    List ImageGraphResource →
    Except ResolveFailure (List ImageTempResource × ResourceManager)
  | [] => .ok ([], rm)
  | img :: rest =>
    match img.description with
    | .Persistent key =>
      match rm.images.get key with
      | some resource =>
        match ResourceManager.get_image_resources_go full swapchain_images fuel rm rest with
        | .ok (resources, rm') =>
          .ok (⟨resource.image, ImageResourceAccess.None⟩ :: resources, rm')
        | .error e => .error e
      | none => .error .panic
    | .Transient transient_image_description =>
      match get_transient_image_size rm full swapchain_images fuel
          transient_image_description.size with
      | .ok image_size =>
        let image := transient_image_description.new_2d image_size
        let (image, ds) :=
          if image.usageStorage then
            let (slot, ds) := rm.descriptor_set.bind_storage_image
            ({ image with storage_binding := some slot }, ds)
          else (image, rm.descriptor_set)
        let (image, ds) :=
          if image.usageSampled then
            let (slot, ds2) := ds.bind_sampled_image
            ({ image with sampled_binding := some slot }, ds2)
          else (image, ds)
        let rm1 : ResourceManager :=
          { rm with
            descriptor_set := ds
            transient_images := rm.transient_images ++ [image] }
        match ResourceManager.get_image_resources_go full swapchain_images fuel rm1 rest with
        | .ok (resources, rm') =>
          .ok (⟨image, ImageResourceAccess.None⟩ :: resources, rm')
        | .error e => .error e
      | .error e => .error e
    | .Swapchain index =>
      match swapchain_images[index]? with
      | some swap_image =>
        match ResourceManager.get_image_resources_go full swapchain_images fuel rm rest with
        | .ok (resources, rm') =>
          .ok (⟨swap_image, ImageResourceAccess.None⟩ :: resources, rm')
        | .error e => .error e
      | none => .error .panic

/-- `get_image_resources` (resource_managers.rs lines 364–421). -/
def ResourceManager.get_image_resources (rm : ResourceManager)
    (swapchain_images : List Image) (images : List ImageGraphResource)
    (fuel : Nat) :
    Except ResolveFailure (List ImageTempResource × ResourceManager) :=
  ResourceManager.get_image_resources_go images swapchain_images fuel rm images

/-! ## Device layer (device.rs) -/

/-- `BufferHandle`: a persistent generational key or a graph-local transient
index (lib.rs of the matching crate version is not in src; variants as
destructured by `Device::destroy_buffer`). -/
inductive BufferHandle where
  | Persistent (key : SlotKey)
  | Transient (index : Nat)
deriving DecidableEq, Repr

/-- The `Device` state components that the claims touch: its persistent
resource manager and the pending host→device upload list
(device.rs lines 133–145). -/
structure Device where
  persistent_resource_manager : ResourceManager
  transfer_list : List (BufferHandle × BufferHandle)

/-- `Device::destroy_buffer` (device.rs lines 200–207): a persistent handle
is enqueued for deferred removal; a transient handle only logs an error and
changes nothing. -/
def Device.destroy_buffer (d : Device) (buffer_handle : BufferHandle) : Device :=
  match buffer_handle with
  | .Persistent key =>
    { d with persistent_resource_manager := d.persistent_resource_manager.remove_buffer key }
  | .Transient _ => d

/-- `Device::destroy_image` (device.rs lines 269–271): the body is `todo!()`,
so every call panics; `none` is the panic outcome. -/
def Device.destroy_image (_ : Device) (_ : ImageHandle) : Option Device :=
  none

/-- `BufferAccess` (render_graph.rs is not in src; fields as constructed by
`Device::submit_frame`): declared write flag, pipeline stage and access
mask.  Only the transfer stage/accesses occur in the claims, so the flag
types are restricted to the constants the source mentions. -/
inductive PipelineStageFlags2 where
  | NONE
  | TRANSFER
deriving DecidableEq, Repr

inductive AccessFlags2 where
  | NONE
  | TRANSFER_READ
  | TRANSFER_WRITE
deriving DecidableEq, Repr

structure BufferAccess where
  write : Bool
  stage : PipelineStageFlags2
  access : AccessFlags2
deriving DecidableEq, Repr

/-- `HashMap::insert` on an association list: replace the binding of an
existing key, else append. -/
def insertUsage (m : List (BufferHandle × BufferAccess)) (k : BufferHandle)
    (v : BufferAccess) : List (BufferHandle × BufferAccess) :=
  if m.any fun p => p.1 = k then
    m.map fun p => if p.1 = k then (k, v) else p
  else m ++ [(k, v)]

/-- Association-list lookup (`HashMap::get`): the binding of the first
entry carrying the key. -/
def lookupUsage : List (BufferHandle × BufferAccess) → BufferHandle →
    Option BufferAccess
  | [], _ => none
  | p :: rest, k => if p.1 = k then some p.2 else lookupUsage rest k

/-- The observable part of a `RenderPass` (render_graph.rs is not in src;
fields as constructed by `Device::submit_frame`): its name and declared
buffer usages.  The recording callback is opaque to the claims. -/
structure RenderPass where
  name : String
  buffer_usages : List (BufferHandle × BufferAccess)
deriving DecidableEq, Repr

/-- The loop body of the transfer-pass usage construction
(device.rs lines 338–355): insert the staging handle of the pair with a
transfer-read access, then the target handle with a transfer-write
access. -/
def transferStep (usages : List (BufferHandle × BufferAccess))
    (p : BufferHandle × BufferHandle) : List (BufferHandle × BufferAccess) :=
  insertUsage
    (insertUsage usages p.1
      ⟨false, PipelineStageFlags2.TRANSFER, AccessFlags2.TRANSFER_READ⟩)
    p.2
    ⟨true, PipelineStageFlags2.TRANSFER, AccessFlags2.TRANSFER_WRITE⟩

/-- The `buffer_usages` map of the synthesized transfer pass
(device.rs lines 336–355): for each pending `(staging, target)` pair, the
staging handle is inserted with a transfer-read access and the target handle
with a transfer-write access, in list order. -/
def transferPassUsages (transfer_list : List (BufferHandle × BufferHandle)) :
    List (BufferHandle × BufferAccess) :=
  transfer_list.foldl transferStep []

/-- The leading transfer pass synthesized by `Device::submit_frame`
(device.rs lines 335–383), produced only when the pending upload list is
non-empty (`(!self.transfer_list.is_empty()).then(..)`). -/
def Device.transfer_pass (d : Device) : Option RenderPass :=
  if d.transfer_list.isEmpty then none
  else some ⟨"Transfer Pass", transferPassUsages d.transfer_list⟩

/-- `Device::submit_frame` (device.rs lines 334–394) restricted to its
pass-list effect: synthesize the optional leading transfer pass, take the
upload list (leaving it empty), and hand the passes to the executor.
Modelled from the spec: `BasicRenderGraphExecutor::execute_graph`
(render_graph.rs is not in src) runs the optional transfer pass before every
user-declared pass, in declaration order; the returned list is that
execution order. -/
def Device.submit_frame (d : Device) (render_graph : List RenderPass) :
    List RenderPass × Device :=
  let passes :=
    match d.transfer_pass with
    | some pass => pass :: render_graph
    | none => render_graph
  (passes, { d with transfer_list := [] })

/-! ## Swapchain acquisition (saturn_rendering/src/swapchain.rs) -/

/-- One outcome of the presentation engine for one acquisition attempt, as
observed after `unwrap_or((0, true))` folds an `Err` into `(0, true)`:
the `suboptimal` flag and the acquired image index
(swapchain.rs lines 175–184). -/
structure AcquireOutcome where
  index : Nat
  suboptimal : Bool
deriving DecidableEq, Repr

/-- `Swapchain::acquire_next_image` (swapchain.rs lines 173–192) as a
fuelled loop over the stream of per-attempt outcomes: return the index as
soon as an attempt is not suboptimal, otherwise rebuild and retry.  The
source loop is unbounded; `none` is fuel exhaustion of the model. -/
def acquire_next_image (outcomes : Nat → AcquireOutcome) :
    Nat → Nat → Option Nat
  | 0, _ => none
  | fuel + 1, attempt =>
    if (outcomes attempt).suboptimal then
      acquire_next_image outcomes fuel (attempt + 1)
    else some (outcomes attempt).index

/-- Big-step relation of the `acquire_next_image` retry loop:
`AcquireEval outcomes attempt r` holds when the loop entered at `attempt`
terminates returning index `r`. -/
inductive AcquireEval (outcomes : Nat → AcquireOutcome) : Nat → Nat → Prop where
  | stop (attempt : Nat) (h : (outcomes attempt).suboptimal = false) :
      AcquireEval outcomes attempt (outcomes attempt).index
  | retry (attempt : Nat) (r : Nat) (h : (outcomes attempt).suboptimal = true)
      (hrec : AcquireEval outcomes (attempt + 1) r) :
      AcquireEval outcomes attempt r

/-- Soundness of the fuelled loop for the relation. -/
theorem acquire_next_image_sound (outcomes : Nat → AcquireOutcome) :
    ∀ (fuel attempt r : Nat),
      acquire_next_image outcomes fuel attempt = some r →
      AcquireEval outcomes attempt r := by
  intro fuel
  induction fuel with
  | zero => intro attempt r h; cases h
  | succ n ih =>
    intro attempt r h
    simp only [acquire_next_image] at h
    by_cases hs : (outcomes attempt).suboptimal
    · rw [if_pos hs] at h
      exact AcquireEval.retry attempt r hs (ih _ _ h)
    · rw [if_neg hs] at h
      cases h
      exact AcquireEval.stop attempt (Bool.not_eq_true _ ▸ hs)

/-! ## Helper lemmas on the slot-map model -/

namespace SlotMap

theorem get_eq_none_of_ge (m : SlotMap α) (k : SlotKey)
    (h : m.slots.length ≤ k.idx) : m.get k = none := by
  unfold get
  rw [List.getElem?_eq_none h]

theorem get_eq_none_of_gen_ne (m : SlotMap α) (k : SlotKey) (s : Slot α)
    (hidx : m.slots[k.idx]? = some s) (hgen : s.generation ≠ k.generation) :
    m.get k = none := by
  unfold get
  simp only [hidx]
  rw [if_neg hgen]

theorem get_eq_some_iff (m : SlotMap α) (k : SlotKey) (v : α) :
    m.get k = some v ↔
      ∃ s, m.slots[k.idx]? = some s ∧ s.generation = k.generation ∧
        s.value = some v := by
  unfold get
  cases hidx : m.slots[k.idx]? with
  | none => simp
  | some s =>
    by_cases hgen : s.generation = k.generation
    · simp [hgen]
    · simp [hgen]

/-- Removing a key makes that key dead. -/
theorem get_remove_self (m : SlotMap α) (k : SlotKey) :
    ((m.remove k).2).get k = none := by
  unfold remove
  cases hidx : m.slots[k.idx]? with
  | none => simp [get, hidx]
  | some s =>
    by_cases hgen : s.generation = k.generation
    · cases hv : s.value with
      | none => simp [get, hidx, hgen, hv]
      | some v =>
        simp only [hidx, hv]
        rw [if_pos hgen]
        unfold get
        have hlt : k.idx < m.slots.length := (List.getElem?_eq_some.mp hidx).1
        simp only [List.getElem?_set_eq_of_lt _ hlt]
        simp
    · simp [get, hidx, hgen]

/-- Removing a different key does not change this key's lookup. -/
theorem get_remove_ne (m : SlotMap α) (k k' : SlotKey) (hne : k ≠ k') :
    ((m.remove k').2).get k = m.get k := by
  unfold remove
  cases hidx : m.slots[k'.idx]? with
  | none => rfl
  | some s =>
    by_cases hgen : s.generation = k'.generation
    · cases hv : s.value with
      | none => simp [hidx, hgen, hv]
      | some v =>
        simp only [hidx, hv]
        rw [if_pos hgen]
        by_cases heq : k'.idx = k.idx
        · have hkgen : s.generation ≠ k.generation := by
            intro hg
            apply hne
            cases k
            cases k'
            simp only [SlotKey.mk.injEq]
            constructor
            · exact heq.symm
            · simp only at hg hgen
              omega
          unfold get
          have hlt : k'.idx < m.slots.length := (List.getElem?_eq_some.mp hidx).1
          rw [← heq]
          simp only [List.getElem?_set_eq_of_lt _ hlt, hidx]
          simp [hkgen]
        · unfold get
          simp only [List.getElem?_set_ne heq]
    · simp [hidx, hgen]

/-- Removing any key preserves deadness of a dead key. -/
theorem get_remove_of_get_none (m : SlotMap α) (k k' : SlotKey)
    (h : m.get k = none) : ((m.remove k').2).get k = none := by
  by_cases heq : k = k'
  · subst heq; exact get_remove_self m k
  · rw [get_remove_ne m k k' heq]; exact h

/-- Removing a dead key leaves the map untouched. -/
theorem remove_of_get_none (m : SlotMap α) (k : SlotKey)
    (h : m.get k = none) : (m.remove k).2 = m := by
  unfold remove
  cases hidx : m.slots[k.idx]? with
  | none => rfl
  | some s =>
    have h' : (if s.generation = k.generation then s.value else none) = none := by
      unfold get at h
      simpa only [hidx] using h
    by_cases hgen : s.generation = k.generation
    · have hv : s.value = none := by rwa [if_pos hgen] at h'
      simp [hv, hgen]
    · simp [hgen]

end SlotMap

namespace ResourceManager

theorem removeKeys_get_of_not_mem (ks : List SlotKey) (m : SlotMap α)
    (k : SlotKey) (h : k ∉ ks) : (removeKeys m ks).get k = m.get k := by
  induction ks generalizing m with
  | nil => rfl
  | cons khd ktl ih =>
    have hne : k ≠ khd := fun he => h (he ▸ List.mem_cons_self _ _)
    have htl : k ∉ ktl := fun hm => h (List.mem_cons_of_mem _ hm)
    simp only [removeKeys, List.foldl_cons] at *
    rw [ih _ htl]
    exact SlotMap.get_remove_ne m k khd hne

theorem removeKeys_get_none (ks : List SlotKey) (m : SlotMap α) (k : SlotKey)
    (h : m.get k = none) : (removeKeys m ks).get k = none := by
  induction ks generalizing m with
  | nil => exact h
  | cons khd ktl ih =>
    simp only [removeKeys, List.foldl_cons] at *
    exact ih _ (SlotMap.get_remove_of_get_none m k khd h)

theorem removeKeys_get_of_mem (ks : List SlotKey) (m : SlotMap α) (k : SlotKey)
    (h : k ∈ ks) : (removeKeys m ks).get k = none := by
  induction ks generalizing m with
  | nil => cases h
  | cons khd ktl ih =>
    simp only [removeKeys, List.foldl_cons] at *
    rcases List.mem_cons.mp h with he | hm
    · subst he
      exact removeKeys_get_none ktl _ k (SlotMap.get_remove_self m k)
    · exact ih _ hm

end ResourceManager

/-! ## Concrete states used by the witnesses and counterexamples -/

/-- A manager with no resources and empty deletion queues (the state right
after `ResourceManager::new`, with the descriptor pools at slot 0). -/
def emptyManager : ResourceManager :=
  { buffers := SlotMap.empty _
    freed_buffers := []
    images := SlotMap.empty _
    freed_images := []
    samplers := SlotMap.empty _
    descriptor_set := ⟨0, 0, 0, 0⟩
    freed_buffers2 := []
    freed_images2 := []
    transient_buffers := []
    transient_images := [] }

def demoBuffer : Buffer := ⟨16, false, none⟩

def demoImage : Image := ⟨⟨64, 64⟩, false, false, none, none⟩

def demoSampler : Sampler := ⟨none⟩

/-- `emptyManager` after adding one buffer, one image and one sampler. -/
def demoManager : ResourceManager :=
  (((emptyManager.add_buffer demoBuffer).2.add_image demoImage).2.add_sampler
      demoSampler).2

/-- The key of `demoBuffer` inside `demoManager`. -/
def demoKey : SlotKey := ⟨0, 1⟩

/-! ## C4: deferred deletion frees exactly at the second flush -/

/-- C4.  A key enqueued by `remove_buffer` (resp. `remove_image`) is still
present in the table after the first subsequent `flush_frame` and is removed
exactly at the second: `flush_frame` executes the frees queued two
generations ago and then rotates the two-slot ring, so a freed key is not
reclaimed before the ring has advanced past its frame. -/
theorem remove_then_two_flushes (rm : ResourceManager) (k : SlotKey) :
    (∀ b, rm.get_buffer k = some b → k ∉ rm.freed_buffers2 →
      (rm.remove_buffer k).flush_frame.get_buffer k = some b ∧
        (rm.remove_buffer k).flush_frame.flush_frame.get_buffer k = none) ∧
    (∀ i, rm.get_image k = some i → k ∉ rm.freed_images2 →
      (rm.remove_image k).flush_frame.get_image k = some i ∧
        (rm.remove_image k).flush_frame.flush_frame.get_image k = none) := by
  constructor
  · intro b hb hnot
    constructor
    · simp only [ResourceManager.remove_buffer, ResourceManager.flush_frame,
        ResourceManager.get_buffer] at *
      rw [ResourceManager.removeKeys_get_of_not_mem _ _ _ hnot]
      exact hb
    · simp only [ResourceManager.remove_buffer, ResourceManager.flush_frame,
        ResourceManager.get_buffer]
      rw [ResourceManager.removeKeys_get_of_mem _ _ _
        (List.mem_append_right _ (List.mem_singleton_self k))]
      rfl
  · intro i hi hnot
    constructor
    · simp only [ResourceManager.remove_image, ResourceManager.flush_frame,
        ResourceManager.get_image] at *
      rw [ResourceManager.removeKeys_get_of_not_mem _ _ _ hnot]
      exact hi
    · simp only [ResourceManager.remove_image, ResourceManager.flush_frame,
        ResourceManager.get_image]
      rw [ResourceManager.removeKeys_get_of_mem _ _ _
        (List.mem_append_right _ (List.mem_singleton_self k))]
      rfl

/-- Witness for C4 at a concrete one-buffer manager. -/
theorem remove_then_two_flushes_witness :
    (demoManager.remove_buffer demoKey).flush_frame.get_buffer demoKey =
        some demoBuffer ∧
      (demoManager.remove_buffer demoKey).flush_frame.flush_frame.get_buffer
          demoKey = none :=
  (remove_then_two_flushes demoManager demoKey).1 demoBuffer (by decide)
    (by decide)

/-! ## C9: flush_frame with no pending deletions is idempotent -/

/-- C9.  With all pending-deletion queues empty, `flush_frame` leaves the
buffer table, image table, sampler table and descriptor bindings unchanged,
and a second `flush_frame` is the identity on the whole resulting state. -/
theorem flush_frame_idempotent_no_pending (rm : ResourceManager)
    (hb : rm.freed_buffers = []) (hb2 : rm.freed_buffers2 = [])
    (hi : rm.freed_images = []) (hi2 : rm.freed_images2 = []) :
    rm.flush_frame.buffers = rm.buffers ∧
    rm.flush_frame.images = rm.images ∧
    rm.flush_frame.samplers = rm.samplers ∧
    rm.flush_frame.descriptor_set = rm.descriptor_set ∧
    rm.flush_frame.flush_frame = rm.flush_frame := by
  refine ⟨?_, ?_, ?_, ?_, ?_⟩ <;>
    simp [ResourceManager.flush_frame, ResourceManager.removeKeys, hb, hb2,
      hi, hi2]

/-- Witness for C9 at a concrete manager with empty queues. -/
theorem flush_frame_idempotent_no_pending_witness :
    demoManager.flush_frame.buffers = demoManager.buffers ∧
    demoManager.flush_frame.images = demoManager.images ∧
    demoManager.flush_frame.samplers = demoManager.samplers ∧
    demoManager.flush_frame.descriptor_set = demoManager.descriptor_set ∧
    demoManager.flush_frame.flush_frame = demoManager.flush_frame :=
  flush_frame_idempotent_no_pending demoManager (by decide) (by decide)
    (by decide) (by decide)

/-! ## C10: the single-key accessors are total and generation-exact -/

/-- C10.  `get_buffer`, `get_image` and `get_sampler` are total: a
never-issued index yields `none`, a stale generation yields `none`, and a
`some` answer always comes from the slot the key addresses with a matching
generation — never another resource's data. -/
theorem single_key_lookups_total (rm : ResourceManager) (k : SlotKey) :
    (rm.buffers.slots.length ≤ k.idx → rm.get_buffer k = none) ∧
    (∀ s, rm.buffers.slots[k.idx]? = some s → s.generation ≠ k.generation →
      rm.get_buffer k = none) ∧
    (∀ b, rm.get_buffer k = some b →
      ∃ s la, rm.buffers.slots[k.idx]? = some s ∧
        s.generation = k.generation ∧ s.value = some ⟨b, la⟩) ∧
    (rm.images.slots.length ≤ k.idx → rm.get_image k = none) ∧
    (∀ s, rm.images.slots[k.idx]? = some s → s.generation ≠ k.generation →
      rm.get_image k = none) ∧
    (∀ i, rm.get_image k = some i →
      ∃ s, rm.images.slots[k.idx]? = some s ∧
        s.generation = k.generation ∧ s.value = some ⟨i⟩) ∧
    (rm.samplers.slots.length ≤ k.idx → rm.get_sampler k = none) ∧
    (∀ s, rm.samplers.slots[k.idx]? = some s → s.generation ≠ k.generation →
      rm.get_sampler k = none) ∧
    (∀ sp, rm.get_sampler k = some sp →
      ∃ s, rm.samplers.slots[k.idx]? = some s ∧
        s.generation = k.generation ∧ s.value = some sp) := by
  refine ⟨?_, ?_, ?_, ?_, ?_, ?_, ?_, ?_, ?_⟩
  · intro h
    simp [ResourceManager.get_buffer, SlotMap.get_eq_none_of_ge _ _ h]
  · intro s hidx hgen
    simp [ResourceManager.get_buffer,
      SlotMap.get_eq_none_of_gen_ne _ _ _ hidx hgen]
  · intro b hb
    simp only [ResourceManager.get_buffer, Option.map_eq_some'] at hb
    obtain ⟨res, hres, hbuf⟩ := hb
    obtain ⟨s, hidx, hgen, hval⟩ := (SlotMap.get_eq_some_iff _ _ _).mp hres
    exact ⟨s, res.last_access, hidx, hgen, by rw [hval, ← hbuf]⟩
  · intro h
    simp [ResourceManager.get_image, SlotMap.get_eq_none_of_ge _ _ h]
  · intro s hidx hgen
    simp [ResourceManager.get_image,
      SlotMap.get_eq_none_of_gen_ne _ _ _ hidx hgen]
  · intro i hi
    simp only [ResourceManager.get_image, Option.map_eq_some'] at hi
    obtain ⟨res, hres, himg⟩ := hi
    obtain ⟨s, hidx, hgen, hval⟩ := (SlotMap.get_eq_some_iff _ _ _).mp hres
    exact ⟨s, hidx, hgen, by rw [hval, ← himg]⟩
  · intro h
    simp [ResourceManager.get_sampler, SlotMap.get_eq_none_of_ge _ _ h]
  · intro s hidx hgen
    simp [ResourceManager.get_sampler,
      SlotMap.get_eq_none_of_gen_ne _ _ _ hidx hgen]
  · intro sp hsp
    exact (SlotMap.get_eq_some_iff _ _ _).mp hsp

/-- Witness for C10: a never-issued key on the empty manager, and a
stale-generation key on the demo manager, both yield `none`. -/
theorem single_key_lookups_total_witness :
    emptyManager.get_buffer ⟨0, 1⟩ = none ∧
      demoManager.get_buffer ⟨0, 2⟩ = none :=
  ⟨(single_key_lookups_total emptyManager ⟨0, 1⟩).1 (Nat.zero_le _),
    (single_key_lookups_total demoManager ⟨0, 2⟩).2.1 ⟨1, some ⟨demoBuffer,
      BufferResourceAccess.None⟩⟩ (by decide) (by decide)⟩

/-! ## C8: a half-scale transient of a 1600×900 swapchain is 800×450 -/

/-- The acquired swapchain image of extent 1600×900. -/
def swapchainImage1600 : Image := ⟨⟨1600, 900⟩, false, false, none, none⟩

/-- Size rule of the transient image: half the swapchain extent (the
swapchain is targeted through transient slot 1, whose description is
`Swapchain 0`). -/
def halfSwapchainSize : TransientImageSize :=
  .Relative (1/2, 1/2) (.Transient 1)

def halfSwapchainImages : List ImageGraphResource :=
  [⟨.Transient ⟨halfSwapchainSize, false, false⟩⟩, ⟨.Swapchain 0⟩]

/-- C8.  Resolving a transient image size `Relative(scale=[0.5,0.5],
target=swapchain)` against an acquired swapchain extent of 1600×900 yields
exactly 800×450 (the fuelled run returns it, and every evaluation of that
size rule equals it). -/
theorem relative_half_of_swapchain_is_800x450 :
    get_transient_image_size emptyManager halfSwapchainImages
        [swapchainImage1600] 2 halfSwapchainSize = .ok ⟨800, 450⟩ ∧
    ∀ e, SizeEval emptyManager halfSwapchainImages [swapchainImage1600]
        halfSwapchainSize e → e = ⟨800, 450⟩ := by
  have hscale : scaleExtent ⟨1600, 900⟩ (1/2, 1/2) = ⟨800, 450⟩ := by
    simp only [scaleExtent, Extent2D.mk.injEq]
    constructor <;> · norm_num; try decide
  constructor
  · show Except.ok (scaleExtent ⟨1600, 900⟩ (1/2, 1/2)) = _
    rw [hscale]
  · intro e h
    rw [show halfSwapchainSize = .Relative (1/2, 1/2) (.Transient 1) from rfl]
      at h
    cases h with
    | relTransientPersistent scale index r image_key img hidx hdesc hget =>
      rw [show halfSwapchainImages[1]? = some ⟨.Swapchain 0⟩ from rfl] at hidx
      injection hidx with h4
      subst h4
      simp at hdesc
    | relTransientTransient scale index r desc e0 hidx hdesc hrec =>
      rw [show halfSwapchainImages[1]? = some ⟨.Swapchain 0⟩ from rfl] at hidx
      injection hidx with h4
      subst h4
      simp at hdesc
    | relTransientSwapchain scale index r swapchain_index img hidx hdesc hget =>
      rw [show halfSwapchainImages[1]? = some ⟨.Swapchain 0⟩ from rfl] at hidx
      injection hidx with h4
      subst h4
      simp only [ImageGraphResource.mk.injEq] at hdesc
      injection hdesc with h5
      subst h5
      rw [show ([swapchainImage1600])[(0 : Nat)]? = some swapchainImage1600
        from rfl] at hget
      injection hget with h6
      subst h6
      exact hscale

/-- Witness for C8: the evaluation relation indeed derives 800×450 (produced
from the fuelled run through soundness), and the uniqueness half maps it to
itself. -/
theorem relative_half_of_swapchain_is_800x450_witness :
    (⟨800, 450⟩ : Extent2D) = ⟨800, 450⟩ :=
  relative_half_of_swapchain_is_800x450.2 ⟨800, 450⟩
    (get_transient_image_size_sound _ _ _ 2 _ _
      relative_half_of_swapchain_is_800x450.1)

/-! ## C1: graph resolution of a dead persistent key panics -/

/-- C1 counterexample.  Resolving a graph description whose persistent key
is missing does NOT return an error to the caller: `get_buffer_resources`
and `get_image_resources` index the slotmap (`self.buffers[*key]`) and
`get_transient_image_size` calls `get_image(..).unwrap()`, so every such
lookup panics — there is no `InvalidHandle` result. -/
theorem persistent_lookup_panics_cex :
    emptyManager.get_buffer_resources
        [⟨.Persistent ⟨0, 1⟩⟩] = .error .panic ∧
    emptyManager.get_image_resources [] [⟨.Persistent ⟨0, 1⟩⟩] 1 =
        .error .panic ∧
    get_transient_image_size emptyManager [] [] 1
        (.Relative (1, 1) (.Persistent ⟨0, 1⟩)) = .error .panic :=
  ⟨rfl, rfl, rfl⟩

/-- C1 amended.  Whenever the persistent key of the graph resource being
resolved is missing or stale, `get_buffer_resources`,
`get_image_resources` and the persistent-target lookup inside
`get_transient_image_size` panic (slotmap index / `unwrap`) instead of
returning an `InvalidHandle` error. -/
theorem persistent_lookup_dead_key_panics (rm : ResourceManager) (k : SlotKey)
    (rest : List BufferGraphResource) (irest : List ImageGraphResource)
    (swap : List Image) (fuel : Nat) (scale : ℚ × ℚ) :
    (rm.buffers.get k = none →
      rm.get_buffer_resources (⟨.Persistent k⟩ :: rest) = .error .panic) ∧
    (rm.images.get k = none →
      rm.get_image_resources swap (⟨.Persistent k⟩ :: irest) fuel =
        .error .panic) ∧
    (rm.get_image k = none →
      get_transient_image_size rm irest swap (fuel + 1)
        (.Relative scale (.Persistent k)) = .error .panic) := by
  refine ⟨?_, ?_, ?_⟩
  · intro h
    simp only [ResourceManager.get_buffer_resources, h]
  · intro h
    simp only [ResourceManager.get_image_resources,
      ResourceManager.get_image_resources_go, h]
  · intro h
    simp only [get_transient_image_size, h]

/-- Witness for C1's amended statement at a concrete dead key. -/
theorem persistent_lookup_dead_key_panics_witness :
    emptyManager.get_buffer_resources [⟨.Persistent ⟨1, 1⟩⟩] =
      .error .panic :=
  (persistent_lookup_dead_key_panics emptyManager ⟨1, 1⟩ [] [] [] 0
    (1, 1)).1 rfl

/-! ## C2: stored last-access is not read-then-overwritten by resolution -/

/-- `emptyManager` holding one buffer whose stored last access is
`StorageWrite`. -/
def writtenManager : ResourceManager :=
  { emptyManager with
    buffers := ⟨[⟨1, some ⟨demoBuffer, .StorageWrite⟩⟩]⟩ }

/-- C2 counterexample.  Graph resolution does not overwrite the stored
last-access with the pass's requested access: `get_buffer_resources` on a
persistent buffer returns the whole manager unchanged (the stored value is
still `StorageWrite` afterwards, whatever the pass requests), and
`get_image_resources` on a persistent image reports `None` as the previous
access — `ImageResource` stores no last-access value at all. -/
theorem last_access_not_overwritten_cex :
    writtenManager.get_buffer_resources [⟨.Persistent ⟨0, 1⟩⟩] =
        .ok ([⟨demoBuffer, .StorageWrite⟩], writtenManager) ∧
    (writtenManager.buffers.get ⟨0, 1⟩).map (fun r => r.last_access) =
        some .StorageWrite ∧
    demoManager.get_image_resources [] [⟨.Persistent ⟨0, 1⟩⟩] 1 =
        .ok ([⟨demoImage, .None⟩], demoManager) :=
  ⟨rfl, rfl, rfl⟩

/-- The manager with the stored last access of buffer `k` replaced by `a`
(the effect of the `std::mem::replace` inside
`get_and_update_buffer_resource`). -/
def replace_last_access (rm : ResourceManager) (k : SlotKey)
    (a : BufferResourceAccess) : ResourceManager :=
  { rm with buffers := rm.buffers.modify k fun r => { r with last_access := a } }

/-- C2 amended.  One stored last-access value exists per persistent buffer:
`get_and_update_buffer_resource` reads it and overwrites it with the new
access, but the graph-resolution path `get_buffer_resources` only reads it
and leaves the manager unchanged, and persistent images store no last
access — `get_image_resources` always reports `None`. -/
theorem last_access_read_semantics (rm : ResourceManager) (k : SlotKey)
    (b : Buffer) (la a : BufferResourceAccess) (img : Image)
    (swap : List Image) (fuel : Nat) :
    (rm.buffers.get k = some ⟨b, la⟩ →
      rm.get_buffer_resources [⟨.Persistent k⟩] = .ok ([⟨b, la⟩], rm)) ∧
    (rm.buffers.get k = some ⟨b, la⟩ →
      rm.get_and_update_buffer_resource k a =
        (some ⟨b, la⟩, replace_last_access rm k a)) ∧
    (rm.images.get k = some ⟨img⟩ →
      rm.get_image_resources swap [⟨.Persistent k⟩] fuel =
        .ok ([⟨img, .None⟩], rm)) := by
  refine ⟨?_, ?_, ?_⟩
  · intro h
    simp only [ResourceManager.get_buffer_resources, h]
  · intro h
    simp only [ResourceManager.get_and_update_buffer_resource, h,
      replace_last_access]
  · intro h
    simp only [ResourceManager.get_image_resources,
      ResourceManager.get_image_resources_go, h]

/-- Witness for C2's amended statement at the concrete managers. -/
theorem last_access_read_semantics_witness :
    writtenManager.get_and_update_buffer_resource ⟨0, 1⟩ .TransferRead =
      (some ⟨demoBuffer, .StorageWrite⟩,
        replace_last_access writtenManager ⟨0, 1⟩ .TransferRead) :=
  (last_access_read_semantics writtenManager ⟨0, 1⟩ demoBuffer .StorageWrite
    .TransferRead demoImage [] 0).2.1 rfl

/-! ## C3: cyclic relative sizes make the resolution diverge -/

/-- No evaluation derivation reaches either size of a two-cycle of
`Relative` transient targets: the recursion of `get_transient_image_size`
has no cycle guard, so on such inputs it never produces a result. -/
theorem twoCycle_no_size_eval (rm : ResourceManager)
    (images : List ImageGraphResource) (swap : List Image) (i j : Nat)
    (di dj : TransientImageDescription) (si sj : ℚ × ℚ)
    (hii : images[i]? = some ⟨.Transient di⟩)
    (hjj : images[j]? = some ⟨.Transient dj⟩)
    (hdi : di.size = .Relative si (.Transient j))
    (hdj : dj.size = .Relative sj (.Transient i)) :
    ∀ sz e, SizeEval rm images swap sz e → sz ≠ di.size ∧ sz ≠ dj.size := by
  intro sz e h
  induction h with
  | exactSize extent =>
    constructor
    · rw [hdi]; simp
    · rw [hdj]; simp
  | relPersistent scale image_key img hget =>
    constructor
    · rw [hdi]; simp
    · rw [hdj]; simp
  | relTransientPersistent scale index r image_key img hidx hdesc hget =>
    constructor
    · intro hEq
      rw [hdi] at hEq
      injection hEq with h1 h2
      injection h2 with h3
      subst h3
      rw [hjj] at hidx
      injection hidx with h4
      subst h4
      simp at hdesc
    · intro hEq
      rw [hdj] at hEq
      injection hEq with h1 h2
      injection h2 with h3
      subst h3
      rw [hii] at hidx
      injection hidx with h4
      subst h4
      simp at hdesc
  | relTransientSwapchain scale index r swapchain_index img hidx hdesc hget =>
    constructor
    · intro hEq
      rw [hdi] at hEq
      injection hEq with h1 h2
      injection h2 with h3
      subst h3
      rw [hjj] at hidx
      injection hidx with h4
      subst h4
      simp at hdesc
    · intro hEq
      rw [hdj] at hEq
      injection hEq with h1 h2
      injection h2 with h3
      subst h3
      rw [hii] at hidx
      injection hidx with h4
      subst h4
      simp at hdesc
  | relTransientTransient scale index r desc e0 hidx hdesc hrec ih =>
    constructor
    · intro hEq
      rw [hdi] at hEq
      injection hEq with h1 h2
      injection h2 with h3
      subst h3
      rw [hjj] at hidx
      injection hidx with h4
      subst h4
      simp only [ImageGraphResource.mk.injEq] at hdesc
      injection hdesc with h5
      subst h5
      exact ih.2 rfl
    · intro hEq
      rw [hdj] at hEq
      injection hEq with h1 h2
      injection h2 with h3
      subst h3
      rw [hii] at hidx
      injection hidx with h4
      subst h4
      simp only [ImageGraphResource.mk.injEq] at hdesc
      injection hdesc with h5
      subst h5
      exact ih.1 rfl

/-- Transient image 0, half-scaled from transient image 1 … -/
def cycleDescA : TransientImageDescription :=
  ⟨.Relative (1/2, 1/2) (.Transient 1), false, false⟩

/-- … and transient image 1, half-scaled from transient image 0. -/
def cycleDescB : TransientImageDescription :=
  ⟨.Relative (1/2, 1/2) (.Transient 0), false, false⟩

def cycleImages : List ImageGraphResource :=
  [⟨.Transient cycleDescA⟩, ⟨.Transient cycleDescB⟩]

/-- C3 counterexample.  On the concrete cycle (A relative to B, B relative
to A) the size resolution admits no result at all — it neither returns an
extent nor fails with a bounded-recursion/cycle error (the source has no
such error path); the recursion simply never terminates. -/
theorem cyclic_size_no_result_cex :
    ¬ ∃ e, SizeEval emptyManager cycleImages [] cycleDescA.size e := by
  rintro ⟨e, h⟩
  exact (twoCycle_no_size_eval emptyManager cycleImages [] 0 1 cycleDescA
    cycleDescB (1/2, 1/2) (1/2, 1/2) rfl rfl rfl rfl _ e h).1 rfl

/-- C3 amended.  `get_transient_image_size` has no visited-set or depth
bound: on any two-cycle of `Relative` transient targets the recursion
diverges — no evaluation derivation exists and the fuelled run returns an
extent for no amount of fuel — instead of failing deterministically with a
bounded-recursion error. -/
theorem cyclic_size_diverges (rm : ResourceManager)
    (images : List ImageGraphResource) (swap : List Image) (i j : Nat)
    (di dj : TransientImageDescription) (si sj : ℚ × ℚ)
    (hii : images[i]? = some ⟨.Transient di⟩)
    (hjj : images[j]? = some ⟨.Transient dj⟩)
    (hdi : di.size = .Relative si (.Transient j))
    (hdj : dj.size = .Relative sj (.Transient i)) :
    (∀ e, ¬ SizeEval rm images swap di.size e) ∧
    (∀ fuel e,
      get_transient_image_size rm images swap fuel di.size ≠ .ok e) := by
  constructor
  · intro e h
    exact (twoCycle_no_size_eval rm images swap i j di dj si sj hii hjj hdi
      hdj _ e h).1 rfl
  · intro fuel e hrun
    exact (twoCycle_no_size_eval rm images swap i j di dj si sj hii hjj hdi
      hdj _ e (get_transient_image_size_sound rm images swap fuel _ e
        hrun)).1 rfl

/-- Witness for C3's amended statement at the concrete cycle. -/
theorem cyclic_size_diverges_witness :
    ¬ SizeEval emptyManager cycleImages [] cycleDescA.size ⟨0, 0⟩ :=
  (cyclic_size_diverges emptyManager cycleImages [] 0 1 cycleDescA cycleDescB
    (1/2, 1/2) (1/2, 1/2) rfl rfl rfl rfl).1 ⟨0, 0⟩

/-! ## C5: destroy operations are not uniformly deferred -/

/-- C5 counterexample.  `Device::destroy_image` is `todo!()` — it panics on
every handle instead of enqueueing the key — and sampler removal is
immediate: right after `remove_sampler` the sampler is gone from the table,
with no deferred-deletion queue involved. -/
theorem destroy_not_deferred_cex :
    Device.destroy_image ⟨demoManager, []⟩ (.Persistent ⟨0, 1⟩) = none ∧
    (demoManager.remove_sampler ⟨0, 1⟩).get_sampler ⟨0, 1⟩ = none ∧
    demoManager.get_sampler ⟨0, 1⟩ = some ⟨some 0⟩ :=
  ⟨rfl, by decide, by decide⟩

/-- C5 amended.  `destroy_buffer` on a persistent handle only enqueues the
key (the freed list grows by the key; tables, ring slot two and lookups are
untouched) and on a transient handle is a logged no-op; `destroy_image` is
unimplemented (`todo!()`) and panics on every handle; sampler removal
(`ResourceManager::remove_sampler`) removes the sampler immediately rather
than deferring, and is a logged no-op on an invalid key. -/
theorem destroy_semantics (d : Device) (k : SlotKey) (i : Nat)
    (h : ImageHandle) (rm : ResourceManager) :
    ((d.destroy_buffer (.Persistent k)).persistent_resource_manager.freed_buffers
        = d.persistent_resource_manager.freed_buffers ++ [k]) ∧
    ((d.destroy_buffer (.Persistent k)).persistent_resource_manager.buffers
        = d.persistent_resource_manager.buffers) ∧
    ((d.destroy_buffer (.Persistent k)).persistent_resource_manager.freed_buffers2
        = d.persistent_resource_manager.freed_buffers2) ∧
    ((d.destroy_buffer (.Persistent k)).transfer_list = d.transfer_list) ∧
    (∀ k2, (d.destroy_buffer (.Persistent k)).persistent_resource_manager.get_buffer k2
        = d.persistent_resource_manager.get_buffer k2) ∧
    (d.destroy_buffer (.Transient i) = d) ∧
    (d.destroy_image h = none) ∧
    ((rm.remove_sampler k).get_sampler k = none) ∧
    (rm.get_sampler k = none → rm.remove_sampler k = rm) := by
  refine ⟨rfl, rfl, rfl, rfl, fun k2 => rfl, rfl, rfl, ?_, ?_⟩
  · exact SlotMap.get_remove_self rm.samplers k
  · intro hdead
    show { rm with samplers := (rm.samplers.remove k).2 } = rm
    rw [SlotMap.remove_of_get_none rm.samplers k hdead]

/-- Witness for C5's amended statement at concrete inputs. -/
theorem destroy_semantics_witness :
    emptyManager.remove_sampler ⟨0, 1⟩ = emptyManager :=
  (destroy_semantics ⟨emptyManager, []⟩ ⟨0, 1⟩ 0 (.Persistent ⟨0, 1⟩)
    emptyManager).2.2.2.2.2.2.2.2 rfl

/-! ## C6: the swapchain acquire loop retries without bound -/

/-- Under a persistently suboptimal presentation engine no run of the
`acquire_next_image` loop terminates, from any starting attempt. -/
theorem allSuboptimal_no_acquire (outcomes : Nat → AcquireOutcome)
    (hall : ∀ n, (outcomes n).suboptimal = true) :
    ∀ attempt r, ¬ AcquireEval outcomes attempt r := by
  intro attempt r h
  induction h with
  | stop a ha => rw [hall a] at ha; cases ha
  | retry a r2 ha hrec ih => exact ih

/-- The loop returns the index of the first non-suboptimal attempt. -/
theorem acquire_first_good (outcomes : Nat → AcquireOutcome) :
    ∀ (m attempt : Nat),
      (∀ n, attempt ≤ n → n < attempt + m → (outcomes n).suboptimal = true) →
      (outcomes (attempt + m)).suboptimal = false →
      AcquireEval outcomes attempt (outcomes (attempt + m)).index := by
  intro m
  induction m with
  | zero =>
    intro attempt _ hgood
    simp only [Nat.add_zero] at hgood ⊢
    exact AcquireEval.stop attempt hgood
  | succ m ih =>
    intro attempt hbad hgood
    have hs : (outcomes attempt).suboptimal = true :=
      hbad attempt (Nat.le_refl _) (by omega)
    have harr : attempt + (m + 1) = (attempt + 1) + m := by omega
    rw [harr] at hgood ⊢
    exact AcquireEval.retry attempt _ hs
      (ih (attempt + 1) (fun n h1 h2 => hbad n (by omega) (by omega)) hgood)

/-- C6 counterexample.  When every acquisition attempt reports suboptimal
(or fails, which `unwrap_or((0, true))` folds into the same case), the
`acquire_next_image` loop admits no terminating run at all — it never
surfaces a `SwapchainLost` error (no such error exists in swapchain.rs; the
function returns a bare `u32`). -/
theorem acquire_never_returns_cex :
    ¬ ∃ r, AcquireEval (fun _ => ⟨0, true⟩) 0 r := by
  rintro ⟨r, h⟩
  exact allSuboptimal_no_acquire (fun _ => ⟨0, true⟩) (fun n => rfl) 0 r h

/-- C6 amended.  `acquire_next_image` has no retry bound and no error path:
under persistent suboptimal/out-of-date reporting it retries forever (no
run terminates), and otherwise it terminates by returning the image index
of the first attempt the presentation engine reports as not suboptimal. -/
theorem acquire_retry_unbounded (outcomes : Nat → AcquireOutcome) :
    ((∀ n, (outcomes n).suboptimal = true) →
      ∀ r, ¬ AcquireEval outcomes 0 r) ∧
    (∀ k, (∀ n, n < k → (outcomes n).suboptimal = true) →
      (outcomes k).suboptimal = false →
      AcquireEval outcomes 0 (outcomes k).index) := by
  constructor
  · intro hall r
    exact allSuboptimal_no_acquire outcomes hall 0 r
  · intro k hbefore hk
    have := acquire_first_good outcomes k 0
      (fun n h1 h2 => hbefore n (by omega)) (by simpa using hk)
    simpa using this

/-- Witness for C6's amended statement: an immediately successful stream
returns its index at once. -/
theorem acquire_retry_unbounded_witness :
    AcquireEval (fun _ => ⟨3, false⟩) 0 3 := by
  have := (acquire_retry_unbounded (fun _ => ⟨3, false⟩)).2 0
    (fun n hn => absurd hn (Nat.not_lt_zero n)) rfl
  simpa using this

/-! ## C7: the synthesized leading transfer pass -/

theorem lookupUsage_map_replace (k : BufferHandle) (v : BufferAccess) :
    ∀ (m : List (BufferHandle × BufferAccess)),
      (m.any fun p => p.1 = k) = true →
      lookupUsage (m.map fun p => if p.1 = k then (k, v) else p) k = some v := by
  intro m
  induction m with
  | nil => intro h; cases h
  | cons hd tl ih =>
    intro hany
    by_cases hhd : hd.1 = k
    · simp [lookupUsage, hhd]
    · have htl : (tl.any fun p => p.1 = k) = true := by
        simpa [List.any_cons, hhd] using hany
      simp [lookupUsage, hhd, ih htl]

theorem lookupUsage_append_single (k : BufferHandle) (v : BufferAccess) :
    ∀ (m : List (BufferHandle × BufferAccess)),
      (m.any fun p => p.1 = k) = false →
      lookupUsage (m ++ [(k, v)]) k = some v := by
  intro m
  induction m with
  | nil => intro h; simp [lookupUsage]
  | cons hd tl ih =>
    intro hany
    rw [List.any_cons] at hany
    rcases Bool.or_eq_false_iff.mp hany with ⟨h1, h2⟩
    have hhd : ¬(hd.1 = k) := by
      intro hh
      simp [hh] at h1
    simp [lookupUsage, hhd, ih h2]

/-- `HashMap::insert` then `get` of the same key yields the inserted
value. -/
theorem lookupUsage_insertUsage_self (m : List (BufferHandle × BufferAccess))
    (k : BufferHandle) (v : BufferAccess) :
    lookupUsage (insertUsage m k v) k = some v := by
  unfold insertUsage
  by_cases hany : (m.any fun p => p.1 = k) = true
  · rw [if_pos hany]
    exact lookupUsage_map_replace k v m hany
  · rw [if_neg hany]
    exact lookupUsage_append_single k v m (Bool.not_eq_true _ ▸ hany)

/-- `HashMap::insert` does not disturb the binding of a different key. -/
theorem lookupUsage_insertUsage_ne (k k' : BufferHandle) (v : BufferAccess)
    (hne : k' ≠ k) (m : List (BufferHandle × BufferAccess)) :
    lookupUsage (insertUsage m k v) k' = lookupUsage m k' := by
  unfold insertUsage
  have h1 : ¬((k : BufferHandle) = k') := fun hh => hne hh.symm
  by_cases hany : (m.any fun p => p.1 = k) = true
  · rw [if_pos hany]
    clear hany
    induction m with
    | nil => rfl
    | cons hd tl ih =>
      by_cases hhd : hd.1 = k
      · have h2 : ¬(hd.1 = k') := by rw [hhd]; exact h1
        simp [lookupUsage, hhd, h1, h2, ih]
      · simp [lookupUsage, hhd, ih]
  · rw [if_neg hany]
    clear hany
    induction m with
    | nil => simp [lookupUsage, h1]
    | cons hd tl ih => simp [lookupUsage, ih]

/-- Folding the transfer list keeps a transfer-read binding for any handle
that appears as a staging source and never as a target. -/
theorem lookup_fold_staging (s : BufferHandle) :
    ∀ (l : List (BufferHandle × BufferHandle))
      (m : List (BufferHandle × BufferAccess)),
      (∀ u, (u, s) ∉ l) →
      lookupUsage (l.foldl transferStep m) s =
        if l.any (fun p => p.1 = s) then
          some ⟨false, PipelineStageFlags2.TRANSFER,
            AccessFlags2.TRANSFER_READ⟩
        else lookupUsage m s := by
  intro l
  induction l with
  | nil => intro m _; simp
  | cons hd tl ih =>
    intro m hnot
    have hs2 : hd.2 ≠ s := by
      intro hh
      exact hnot hd.1 (by rw [← hh]; exact List.mem_cons_self _ _)
    have htl : ∀ u, (u, s) ∉ tl := fun u hm =>
      hnot u (List.mem_cons_of_mem _ hm)
    rw [List.foldl_cons, ih (transferStep m hd) htl]
    by_cases hhd : hd.1 = s
    · have hlookup : lookupUsage (transferStep m hd) s =
          some ⟨false, PipelineStageFlags2.TRANSFER,
            AccessFlags2.TRANSFER_READ⟩ := by
        unfold transferStep
        rw [lookupUsage_insertUsage_ne hd.2 s _ (fun hh => hs2 hh.symm),
          hhd, lookupUsage_insertUsage_self]
      simp [List.any_cons, hhd, hlookup]
    · have hstep : lookupUsage (transferStep m hd) s = lookupUsage m s := by
        unfold transferStep
        rw [lookupUsage_insertUsage_ne hd.2 s _ (fun hh => hs2 hh.symm),
          lookupUsage_insertUsage_ne hd.1 s _ (fun hh => hhd hh.symm)]
      rw [hstep]
      by_cases hta : (tl.any fun p => decide (p.1 = s)) = true
      · rw [if_pos hta, if_pos (by rw [List.any_cons, hta, Bool.or_true])]
      · rw [if_neg hta, if_neg ?_]
        intro hOr
        simp only [List.any_cons, Bool.or_eq_true] at hOr
        rcases hOr with h | h
        · exact hhd (by simpa using h)
        · exact hta (by simpa using h)

/-- Folding the transfer list keeps a transfer-write binding for any handle
that appears as a target and never as a staging source. -/
theorem lookup_fold_target (t : BufferHandle) :
    ∀ (l : List (BufferHandle × BufferHandle))
      (m : List (BufferHandle × BufferAccess)),
      (∀ u, (t, u) ∉ l) →
      lookupUsage (l.foldl transferStep m) t =
        if l.any (fun p => p.2 = t) then
          some ⟨true, PipelineStageFlags2.TRANSFER,
            AccessFlags2.TRANSFER_WRITE⟩
        else lookupUsage m t := by
  intro l
  induction l with
  | nil => intro m _; simp
  | cons hd tl ih =>
    intro m hnot
    have hs1 : hd.1 ≠ t := by
      intro hh
      exact hnot hd.2 (by rw [← hh]; exact List.mem_cons_self _ _)
    have htl : ∀ u, (t, u) ∉ tl := fun u hm =>
      hnot u (List.mem_cons_of_mem _ hm)
    rw [List.foldl_cons, ih (transferStep m hd) htl]
    by_cases hhd : hd.2 = t
    · have hlookup : lookupUsage (transferStep m hd) t =
          some ⟨true, PipelineStageFlags2.TRANSFER,
            AccessFlags2.TRANSFER_WRITE⟩ := by
        unfold transferStep
        rw [hhd, lookupUsage_insertUsage_self]
      simp [List.any_cons, hhd, hlookup]
    · have hstep : lookupUsage (transferStep m hd) t = lookupUsage m t := by
        unfold transferStep
        rw [lookupUsage_insertUsage_ne hd.2 t _ (fun hh => hhd hh.symm),
          lookupUsage_insertUsage_ne hd.1 t _ (fun hh => hs1 hh.symm)]
      rw [hstep]
      by_cases hta : (tl.any fun p => decide (p.2 = t)) = true
      · rw [if_pos hta, if_pos (by rw [List.any_cons, hta, Bool.or_true])]
      · rw [if_neg hta, if_neg ?_]
        intro hOr
        simp only [List.any_cons, Bool.or_eq_true] at hOr
        rcases hOr with h | h
        · exact hhd (by simpa using h)
        · exact hta (by simpa using h)

/-- C7.  `submit_frame` synthesizes a leading transfer pass iff the pending
upload list is non-empty; when synthesized it runs before every
user-declared pass, declares each staging buffer with a transfer-read
access and each target buffer with a transfer-write access (staging handles
are freshly created by `update_data_to_buffer`, so a handle never plays
both roles), and the submission leaves the upload list empty. -/
theorem submit_frame_transfer_pass (d : Device) (graph : List RenderPass) :
    ((d.submit_frame graph).2.transfer_list = []) ∧
    (d.transfer_list = [] →
      d.transfer_pass = none ∧ (d.submit_frame graph).1 = graph) ∧
    (d.transfer_list ≠ [] →
      (d.submit_frame graph).1 =
        ⟨"Transfer Pass", transferPassUsages d.transfer_list⟩ :: graph) ∧
    (∀ s t, (s, t) ∈ d.transfer_list → (∀ u, (u, s) ∉ d.transfer_list) →
      lookupUsage (transferPassUsages d.transfer_list) s =
        some ⟨false, PipelineStageFlags2.TRANSFER,
          AccessFlags2.TRANSFER_READ⟩) ∧
    (∀ s t, (s, t) ∈ d.transfer_list → (∀ u, (t, u) ∉ d.transfer_list) →
      lookupUsage (transferPassUsages d.transfer_list) t =
        some ⟨true, PipelineStageFlags2.TRANSFER,
          AccessFlags2.TRANSFER_WRITE⟩) := by
  refine ⟨rfl, ?_, ?_, ?_, ?_⟩
  · intro h
    constructor
    · simp [Device.transfer_pass, h]
    · simp [Device.submit_frame, Device.transfer_pass, h]
  · intro h
    cases hl : d.transfer_list with
    | nil => exact absurd hl h
    | cons hd tl =>
      simp [Device.submit_frame, Device.transfer_pass, hl]
  · intro s t hmem hnot
    have hany : (d.transfer_list.any fun p => p.1 = s) = true :=
      List.any_eq_true.mpr ⟨(s, t), hmem, by simp⟩
    rw [transferPassUsages, lookup_fold_staging s d.transfer_list [] hnot,
      if_pos hany]
  · intro s t hmem hnot
    have hany : (d.transfer_list.any fun p => p.2 = t) = true :=
      List.any_eq_true.mpr ⟨(s, t), hmem, by simp⟩
    rw [transferPassUsages, lookup_fold_target t d.transfer_list [] hnot,
      if_pos hany]

/-- Witness for C7 at a one-upload device: the synthesized pass binds the
staging handle to a transfer read. -/
theorem submit_frame_transfer_pass_witness :
    lookupUsage (transferPassUsages [(BufferHandle.Persistent ⟨0, 1⟩,
        BufferHandle.Persistent ⟨1, 1⟩)]) (BufferHandle.Persistent ⟨0, 1⟩) =
      some ⟨false, PipelineStageFlags2.TRANSFER,
        AccessFlags2.TRANSFER_READ⟩ :=
  (submit_frame_transfer_pass
      ⟨emptyManager, [(.Persistent ⟨0, 1⟩, .Persistent ⟨1, 1⟩)]⟩ []).2.2.2.1
    (.Persistent ⟨0, 1⟩) (.Persistent ⟨1, 1⟩)
    (List.mem_singleton_self _)
    (by
      intro u hu
      rw [List.mem_singleton, Prod.mk.injEq] at hu
      exact absurd hu.2 (by decide))

end Saturn
